import Mathlib

/-!
Verification of the metrics subsystem of abstract-p2p/fly-psyche.

The Go sources are shallowly embedded: signed 64-bit machine integers are
modelled as `Int` together with an explicit wrap into the interval
`[-2^63, 2^63)`; the mutex-protected critical sections of the coalescing
throttle are modelled as atomic events of a small-step machine; operations
that can panic at runtime in Go (a method call on a nil interface value)
return `Except`.
-/

namespace FlyPsyche

/-- Two's-complement wrap of an integer into the signed 64-bit range
`[-2^63, 2^63)`, modelling Go `int64` overflow semantics. -/
def wrap64 (z : Int) : Int := (z + 2 ^ 63) % 2 ^ 64 - 2 ^ 63

/-- Membership in the signed 64-bit range. -/
def inInt64 (z : Int) : Prop := -(2 ^ 63) ≤ z ∧ z < 2 ^ 63

instance (z : Int) : Decidable (inInt64 z) := by
  unfold inInt64; infer_instance

/-! ## OncePerDelta — the delta gate

Embeds `OncePerDelta` from `src/unnamed/part_003` (lines 125-163).  The Go
struct stores a threshold `delta` and the last allowed value `lastVal`, both
`int64`.  `Do` computes `diff := val - lastVal` in wrapping 64-bit
arithmetic, conditionally negates it (also wrapping: negating the minimum
`int64` leaves it unchanged), suppresses the callback when `diff < delta`,
and otherwise records `lastVal = val` before invoking the callback.  The
returned `Bool` is `true` exactly when the callback is invoked. -/

structure OncePerDelta where
  delta : Int
  lastVal : Int
deriving DecidableEq, Repr

def OncePerDelta.Do (opd : OncePerDelta) (val : Int) : OncePerDelta × Bool :=
  let diff := wrap64 (val - opd.lastVal)
  let diff2 := if diff < 0 then wrap64 (-diff) else diff
  if diff2 < opd.delta then (opd, false)
  else ({ opd with lastVal := val }, true)

def OncePerDelta.Reset (opd : OncePerDelta) (val : Int) : OncePerDelta :=
  { opd with lastVal := val }

/-- The conditionally negated wrapped difference the gate compares against
its threshold, exactly as computed by `OncePerDelta.Do`. -/
def condNegAbs (d : Int) : Int := if d < 0 then wrap64 (-d) else d

/-! ## OncePerDur — the coalescing throttle, sequential view

Embeds the state of `OncePerDur` from `src/unnamed/part_003` (lines 8-77)
and the lock-protected body of `OncePerDur.Do`, with `time.Time` /
`time.Duration` modelled as `Int` (nanoseconds).  `timerExists` models
`op.timer != nil`; `armed` models a scheduled (not yet delivered) timer
fire.  The result reports what the call did: replaced the pending slot,
armed the timer with a given delay (`time.AfterFunc(now.Sub(next), ...)`
when the timer is first created, `op.timer.Reset(op.dur)` afterwards), or
started the runner goroutine with the given callback. -/

inductive DoResult where
  | updatedPending
  | armed (delay : Int)
  | ran (f : Nat)
deriving DecidableEq, Repr

structure OncePerDur where
  dur : Int
  last : Int
  timerExists : Bool
  armed : Bool
  pending : Option Nat
  isRunning : Bool
deriving DecidableEq, Repr

def OncePerDur.Do (op : OncePerDur) (f : Nat) (now : Int) : OncePerDur × DoResult :=
  if op.pending.isSome || op.isRunning then
    ({ op with pending := some f }, .updatedPending)
  else if now < op.last + op.dur then
    if op.timerExists then
      ({ op with pending := some f, armed := true }, .armed op.dur)
    else
      ({ op with pending := some f, timerExists := true, armed := true },
        .armed (now - (op.last + op.dur)))
  else
    ({ op with last := now, isRunning := true }, .ran f)

def OncePerDur.Reset (op : OncePerDur) (now : Int) : OncePerDur :=
  { op with armed := if op.timerExists then false else op.armed,
            pending := none, last := now }

/-! ## OncePerDur — the coalescing throttle, concurrent view

A small-step machine over the throttle state.  Each event is one
mutex-protected critical section of `src/unnamed/part_003` (every shared
field of `OncePerDur` is read and written only under `op.mu`, so critical
sections are the atomic units of the real program):

* `doCall id within` — the body of `Do` (lines 32-65) for a fresh callback,
  identified by `id`; `within` is the result of the `now.Before(next)` time
  comparison, left nondeterministic so the machine covers every timing.
* `fire` — expiry of the armed one-shot timer: the Go runtime dequeues the
  timer and prepares to run `handleTimer` in its own goroutine.
* `handleT` — the body of `handleTimer` (lines 107-123) together with the
  start of `runner(f)` (line 122), which begins executing `f`.
* `finish id` — the callback `id` currently being executed by a runner
  returns, together with one iteration of the runner loop (lines 89-104):
  either the runner exits (no pending callback) or it dequeues and starts
  executing the pending callback.
* `reset` — the body of `Reset` (lines 69-77): stops the armed timer (a
  fire already dequeued by the Go runtime is not recalled) and clears the
  pending slot.

Ghost fields record history: `submitted` lists callback ids passed to `Do`
(most recent first), `executed` lists ids whose execution has started, and
`superseded` lists ids that were overwritten while waiting in the pending
slot.  `runners` is the multiset of ids currently being executed. -/

namespace OPMachine

structure St where
  pending : Option Nat
  isRunning : Bool
  armed : Bool
  queued : Nat
  runners : List Nat
  submitted : List Nat
  executed : List Nat
  superseded : List Nat
deriving DecidableEq, Repr

def init : St := ⟨none, false, false, 0, [], [], [], []⟩

inductive Ev where
  | doCall (id : Nat) (within : Bool)
  | fire
  | handleT
  | finish (id : Nat)
  | reset
deriving DecidableEq, Repr

def step (s : St) : Ev → Option St
  | .doCall id _within =>
    if id ∈ s.submitted then none
    else if s.pending.isSome || s.isRunning then
      some { s with submitted := id :: s.submitted, pending := some id,
                    superseded := s.pending.elim s.superseded (fun j => j :: s.superseded) }
    else if _within then
      some { s with submitted := id :: s.submitted, pending := some id, armed := true }
    else
      some { s with submitted := id :: s.submitted, isRunning := true,
                    runners := id :: s.runners, executed := id :: s.executed }
  | .fire =>
    if s.armed then some { s with armed := false, queued := s.queued + 1 } else none
  | .handleT =>
    if s.queued = 0 then none
    else
      match s.pending with
      | none => some { s with queued := s.queued - 1 }
      | some id =>
        some { s with queued := s.queued - 1, pending := none, isRunning := true,
                      runners := id :: s.runners, executed := id :: s.executed }
  | .finish id =>
    if id ∈ s.runners then
      match s.pending with
      | none => some { s with runners := s.runners.erase id, isRunning := false }
      | some j =>
        some { s with runners := j :: s.runners.erase id, pending := none,
                      executed := j :: s.executed }
    else none
  | .reset =>
    some { s with pending := none, armed := false }

def run (s : St) : List Ev → Option St
  | [] => some s
  | e :: tr => (step s e).bind fun s1 => run s1 tr

/-- The inductive invariant of the throttle machine, for traces that do not
contain `reset`: at most one runner, the running flag tracks it, at most
one timer fire is armed or queued and only while a callback waits pending
with no runner, executions never repeat, superseded callbacks are never
executed, and the pending slot always holds the most recent submission. -/
structure Inv (s : St) : Prop where
  oneRunner : s.runners.length ≤ 1
  runningIff : s.isRunning = true ↔ s.runners ≠ []
  oneFire : (if s.armed then 1 else 0) + s.queued ≤ 1
  fireWaiting : s.armed = true ∨ 0 < s.queued → s.pending.isSome = true ∧ s.runners = []
  execNodup : s.executed.Nodup
  supNotExec : ∀ i ∈ s.superseded, i ∉ s.executed
  pendingFresh : ∀ i, s.pending = some i →
    i ∉ s.executed ∧ i ∉ s.superseded ∧ s.submitted.head? = some i
  execSub : ∀ i ∈ s.executed, i ∈ s.submitted
  supSub : ∀ i ∈ s.superseded, i ∈ s.submitted
  runSub : ∀ i ∈ s.runners, i ∈ s.submitted
  pendingSub : ∀ i, s.pending = some i → i ∈ s.submitted

/-- A concrete interleaving used to witness the main serialization theorem:
two callbacks are coalesced behind the window, the first is superseded, the
timer fires and runs the second, a third arrives while it is running and is
executed by the runner loop. -/
def tr0 : List Ev :=
  [.doCall 0 true, .doCall 1 true, .fire, .handleT, .doCall 2 true,
   .finish 1, .finish 2]

def final0 : St :=
  ⟨none, false, false, 0, [], [2, 1, 0], [2, 1], [0]⟩

end OPMachine

/-! ## Gauge

Embeds `Gauge` from `src/unnamed/part_004` (second file in the bundle,
lines 305-366): a name, an atomically mutated `int64` value, an optional
connection scope `raddr`, and the owned gate and throttle.  `Add` performs
the atomic wrapping add, then offers the new value to the delta gate, whose
callback (when allowed) offers the publish closure to the throttle.  The
second component reports the throttle action taken, `none` when the gate
suppressed the change (the callback id `0` stands for the publish
closure). -/

structure Gauge where
  name : String
  val : Int
  raddr : String
  opd : OncePerDelta
  opdur : OncePerDur
deriving DecidableEq, Repr

def Gauge.Val (g : Gauge) : Int := g.val

def Gauge.StringWithVal (g : Gauge) (val : Int) : String :=
  g.name ++ "=" ++ toString val

def Gauge.Add (g : Gauge) (n : Int) (now : Int) : Gauge × Option DoResult :=
  if n = 0 then (g, none)
  else
    let val := wrap64 (g.val + n)
    let gateRes := g.opd.Do val
    if gateRes.2 then
      let durRes := g.opdur.Do 0 now
      ({ g with val := val, opd := gateRes.1, opdur := durRes.1 }, some durRes.2)
    else
      ({ g with val := val, opd := gateRes.1 }, none)

def Gauge.Inc (g : Gauge) (now : Int) : Gauge × Option DoResult := g.Add 1 now

def Gauge.Dec (g : Gauge) (now : Int) : Gauge × Option DoResult := g.Add (-1) now

/-! ## Metrics registry

Embeds `Metrics` from `src/unnamed/part_004` (second file, lines 207-303).
The scope-keyed channel map `edges` is modelled by its key set (the
attached scopes); the external `psyche.Interface` values carry no state the
claims need.  A publish action records the scope whose channel received the
payload.  `pub` is the organic publication path (lines 230-243), guarded by
the comma-ok map lookup; `pubMetrics` answers a poll (lines 245-265): it
builds the newline-terminated dump of the gauges visible to the polling
scope while resetting the throttle and the delta gate of every registered
gauge, then publishes via the unguarded lookup `m.edges[raddr]` — when the
scope is not attached that lookup yields a nil interface value and the
`Pub` call panics, modelled as `Except.error`. -/

def metricsSubject : String := ".metrics"

structure PubAct where
  scope : String
  subject : String
  payload : String
deriving DecidableEq, Repr

structure Metrics where
  edges : List String
  gauges : List Gauge
deriving DecidableEq, Repr

def Metrics.pub (m : Metrics) (raddr : String) (payload : String) :
    Except String (List PubAct) :=
  if raddr ≠ "" then
    if raddr ∈ m.edges then Except.ok [⟨raddr, metricsSubject, payload⟩]
    else Except.ok []
  else Except.ok (m.edges.map fun e => ⟨e, metricsSubject, payload⟩)

/-- One iteration of the gauge loop in `pubMetrics` (lines 249-259): read
the value, append the `name=value` line (newline-terminated) when the gauge
is global or scoped to the poller, and reset the gauge's throttle and delta
gate — the resets are applied to every gauge, visible or not. -/
def pollStep (raddr : String) (now : Int) (acc : String × List Gauge) (g : Gauge) :
    String × List Gauge :=
  let val := g.Val
  ((if g.raddr = "" ∨ g.raddr = raddr
    then acc.1 ++ g.StringWithVal val ++ "\n" else acc.1),
   acc.2 ++ [{ g with opdur := g.opdur.Reset now, opd := g.opd.Reset val }])

def Metrics.pubMetrics (m : Metrics) (raddr : String) (now : Int) :
    Except String (Metrics × List PubAct) :=
  let acc := m.gauges.foldl (pollStep raddr now) ("", [])
  if raddr ∈ m.edges then
    Except.ok ({ m with gauges := acc.2 }, [⟨raddr, metricsSubject, acc.1⟩])
  else
    Except.error "panic: Pub called on nil psyche.Interface"

/-- Visibility of a gauge to a polling scope: global gauges (empty `raddr`)
and gauges scoped to the poller. -/
def visibleTo (raddr : String) (g : Gauge) : Bool :=
  g.raddr = "" || g.raddr = raddr

/-- Modelled from the spec: the poll payload as the spec describes it — one
`name=value` line per visible gauge, in registration order, each line
newline-terminated. -/
def payloadFor (gs : List Gauge) (raddr : String) : String :=
  String.join ((gs.filter (visibleTo raddr)).map fun g => g.StringWithVal g.val ++ "\n")

/-- The reset a poll applies to one gauge: the throttle's `Reset` (timer
stopped, pending slot cleared) and the delta gate's `Reset` to the gauge's
current value. -/
def resetGauge (now : Int) (g : Gauge) : Gauge :=
  { g with opdur := g.opdur.Reset now, opd := g.opd.Reset g.Val }

/-! ## Instrumentation adapters

Embeds `InFlightMiddleware`, `metricsConn` and `metricsListener` from
`src/unnamed/part_004` (second file, lines 368-432). -/

/-- Outcome of the inner handler: a normal return or a raised panic, each
carrying the handler's effect on its own state. -/
inductive HandlerOutcome (σ : Type) where
  | ok (s : σ)
  | raised (s : σ)
deriving DecidableEq, Repr

/-- The in-flight middleware: `gauge.Inc()` before the inner handler,
`defer gauge.Dec()` — the decrement runs exactly once whether the handler
returns or raises.  Returns the gauge as the inner handler observes it, the
gauge after completion, and the handler outcome (propagated unchanged). -/
def InFlightMiddleware {σ : Type} (g : Gauge) (now1 now2 : Int)
    (handler : σ → HandlerOutcome σ) (s : σ) :
    Gauge × Gauge × HandlerOutcome σ :=
  let g1 := (g.Inc now1).1
  let r := handler s
  let g2 := (g1.Dec now2).1
  (g1, g2, r)

/-- The instrumented connection: the server-wide pair and the
per-connection pair of byte-count gauges. -/
structure metricsConn where
  sentTotal : Gauge
  receivedTotal : Gauge
  sentThis : Gauge
  receivedThis : Gauge
deriving DecidableEq, Repr

/-- `metricsConn.Write`: the underlying `Conn.Write` transferred `n` bytes;
`n` is added to the server-wide and the per-connection sent gauges. -/
def metricsConn.Write (mc : metricsConn) (n : Int) (now : Int) : metricsConn :=
  { mc with sentTotal := (mc.sentTotal.Add n now).1,
            sentThis := (mc.sentThis.Add n now).1 }

/-- `metricsConn.Read`: the underlying `Conn.Read` transferred `n` bytes;
`n` is added to the server-wide and the per-connection received gauges. -/
def metricsConn.Read (mc : metricsConn) (n : Int) (now : Int) : metricsConn :=
  { mc with receivedTotal := (mc.receivedTotal.Add n now).1,
            receivedThis := (mc.receivedThis.Add n now).1 }

/-- What the model needs of a `net.Conn`: its remote address. -/
structure NetConn where
  raddr : String
deriving DecidableEq, Repr

/-- `metricsListener.Accept` (lines 405-419): the underlying `Accept`
returned `(conn, err)`; the code calls `conn.RemoteAddr()` before checking
`err`, so when the underlying accept failed (`conn` nil) the method call on
the nil interface panics, modelled as `Except.error`.  On the non-nil path
the per-connection gauges are created from the factory and the wrapped
connection is returned together with the untouched `err`. -/
def metricsListener.Accept (sentTotal receivedTotal : Gauge)
    (connGauges : String → Gauge × Gauge)
    (res : Option NetConn × Option String) :
    Except String ((metricsConn × NetConn) × Option String) :=
  let conn := res.1
  let err := res.2
  match conn with
  | none => Except.error "panic: runtime error: invalid memory address or nil pointer dereference"
  | some c =>
    let raddr := c.raddr
    let sr := connGauges raddr
    Except.ok ((⟨sentTotal, receivedTotal, sr.1, sr.2⟩, c), err)

/-! ## Concrete fixtures for counterexamples and witnesses -/

/-- A fresh throttle with a 10-unit window, as `NewOncePerDur(10)` builds
it (zero last-run time, no timer yet). -/
def opFresh : OncePerDur := ⟨10, 0, false, false, none, false⟩

/-- The same throttle after its timer object has been created by an earlier
arming (the `op.timer != nil` branch). -/
def opWithTimer : OncePerDur := ⟨10, 0, true, false, none, false⟩

/-- A fresh gauge with the given name, scope, threshold and value. -/
def mkGauge (name : String) (raddr : String) (delta : Int) (val : Int) : Gauge :=
  ⟨name, val, raddr, ⟨delta, 0⟩, opFresh⟩

/-- Registry fixture: scope A attached, a global gauge and a gauge scoped
to connection B. -/
def mA : Metrics :=
  ⟨["A"], [mkGauge "G1" "" 0 5, mkGauge "G2" "B" 3 7]⟩

/-- The fixture registry after a poll from scope A: every gauge's delta
gate is rebased to its current value and every throttle is reset — also
those of the gauge scoped to connection B. -/
def mAReset : Metrics :=
  ⟨["A"], [⟨"G1", 5, "", ⟨0, 5⟩, ⟨10, 100, false, false, none, false⟩⟩,
           ⟨"G2", 7, "B", ⟨3, 7⟩, ⟨10, 100, false, false, none, false⟩⟩]⟩

/-- An idle zero-valued global gauge. -/
def gZero : Gauge := mkGauge "g" "" 0 0

/-- A gauge whose delta gate has threshold 10, so that a change of 3 is
below threshold. -/
def gC6 : Gauge := mkGauge "g" "" 10 0

/-- A connection fixture whose four byte-count gauges are all zero. -/
def mcZero : metricsConn :=
  ⟨mkGauge "bytes_sent" "" 0 0, mkGauge "bytes_received" "" 0 0,
   mkGauge "bytes_sent_this" "c" 0 0, mkGauge "bytes_received_this" "c" 0 0⟩

/-! ## Helper lemmas on 64-bit arithmetic -/

theorem wrap64_lb (z : Int) : -(2 ^ 63) ≤ wrap64 z := by
  have h : 0 ≤ (z + 2 ^ 63) % 2 ^ 64 := Int.emod_nonneg _ (by norm_num)
  unfold wrap64; omega

theorem wrap64_ub (z : Int) : wrap64 z < 2 ^ 63 := by
  have h : (z + 2 ^ 63) % 2 ^ 64 < 2 ^ 64 := Int.emod_lt_of_pos _ (by norm_num)
  unfold wrap64; omega

theorem wrap64_eq_self {z : Int} (h1 : -(2 ^ 63) ≤ z) (h2 : z < 2 ^ 63) :
    wrap64 z = z := by
  unfold wrap64
  rw [Int.emod_eq_of_lt (by omega) (by omega)]
  omega

theorem wrap64_pow63 : wrap64 (2 ^ 63) = -(2 ^ 63) := by decide

theorem condNegAbs_spec (d : Int) (h1 : -(2 ^ 63) ≤ d) (h2 : d < 2 ^ 63) :
    condNegAbs d = if d = -(2 ^ 63) then -(2 ^ 63) else |d| := by
  unfold condNegAbs
  by_cases hmin : d = -(2 ^ 63)
  · rw [if_pos hmin, hmin, if_pos (by norm_num), show -(-(2 ^ 63) : Int) = 2 ^ 63 by ring,
      wrap64_pow63]
  · rw [if_neg hmin]
    by_cases hd : d < 0
    · rw [if_pos hd, wrap64_eq_self (by omega) (by omega), abs_of_neg hd]
    · rw [if_neg hd, abs_of_nonneg (by omega)]

/-- `OncePerDelta.Do` fires exactly when the conditionally negated wrapped
difference reaches the threshold. -/
theorem OncePerDelta.Do_eq (opd : OncePerDelta) (val : Int) :
    opd.Do val =
      if condNegAbs (wrap64 (val - opd.lastVal)) < opd.delta then (opd, false)
      else ({ opd with lastVal := val }, true) := rfl

/-! ## Claim C1 -/

/-- Claim C1 (refuted, code bug): when nothing is pending or running and
the window has not yet elapsed, `OncePerDur.Do` stores the callback as
pending and returns without executing it, but the timer it arms does not
fire at `lastRunTime + window`: on first arming the delay passed to
`time.AfterFunc` is `now.Sub(next)` — negative, so the timer fires
immediately — and on re-arming `op.timer.Reset(op.dur)` uses the full
window measured from `now`.  Evaluated at `lastRunTime = 0`, `window = 10`,
`now = 4`: the remaining delay required by the claim is `6`, while the code
arms `-6` on a fresh timer and `10` on an existing one.  The same lines
appear verbatim in `src/metrics/sync.go` (`OncePer.Do`). -/
theorem C1_arm_delay_wrong :
    (opFresh.Do 7 4).2 = DoResult.armed (-6) ∧
    (opFresh.Do 7 4).1.pending = some 7 ∧
    (opFresh.Do 7 4).1.isRunning = false ∧
    (opWithTimer.Do 7 4).2 = DoResult.armed 10 ∧
    ((-6 : Int) < 0 ∧ (-6 : Int) ≠ 0 + 10 - 4 ∧ (10 : Int) ≠ 0 + 10 - 4) := by
  decide

/-! ## Claims C3 and C10 -/

/-- Claim C3 counterexample: with threshold `0` and `lastAllowed = 0`,
`Do` at the minimum int64 value `-2^63` does not invoke the callback,
although the claim requires `Do` with threshold `0` to always invoke it
(and indeed `|v - lastAllowed| = 2^63 ≥ 0`): the wrapped difference is
`-2^63`, whose two's-complement negation is again `-2^63 < 0`. -/
theorem C3_counterexample :
    ((OncePerDelta.mk 0 0).Do (-(2 ^ 63))).2 = false ∧
    (0 : Int) ≤ |(-(2 ^ 63) : Int) - 0| := by
  constructor
  · decide
  · positivity

/-- Claim C3 (amended): `Do(v, cb)` invokes `cb` iff the wrapped (mod
`2^64`) difference `d = v - lastAllowed` is not `-2^63` and `|d| ≥ T`; the
case `d = -2^63` never fires for any threshold `T ≥ 0`, including `T = 0`
(two's-complement negation leaves `-2^63` negative).  When it fires,
`lastAllowed` is set to `v` (the assignment precedes the callback in the
source); when it does not fire the gate state is unchanged.  `Reset(v)`
sets `lastAllowed = v` without invoking anything. -/
theorem C3_delta_gate_amended (T l v : Int) (hT : 0 ≤ T) :
    (((OncePerDelta.mk T l).Do v).2 = true ↔
      (wrap64 (v - l) ≠ -(2 ^ 63) ∧ T ≤ |wrap64 (v - l)|)) ∧
    (((OncePerDelta.mk T l).Do v).2 = true →
      ((OncePerDelta.mk T l).Do v).1 = OncePerDelta.mk T v) ∧
    (((OncePerDelta.mk T l).Do v).2 = false →
      ((OncePerDelta.mk T l).Do v).1 = OncePerDelta.mk T l) ∧
    ((OncePerDelta.mk T l).Reset v).lastVal = v := by
  have hd1 := wrap64_lb (v - l)
  have hd2 := wrap64_ub (v - l)
  have hchar := condNegAbs_spec (wrap64 (v - l)) hd1 hd2
  have hdo := OncePerDelta.Do_eq (OncePerDelta.mk T l) v
  simp only [show (OncePerDelta.mk T l).lastVal = l from rfl,
    show (OncePerDelta.mk T l).delta = T from rfl] at hdo
  by_cases hmin : wrap64 (v - l) = -(2 ^ 63)
  · rw [if_pos hmin] at hchar
    rw [hchar] at hdo
    rw [if_pos (by omega)] at hdo
    refine ⟨?_, ?_, ?_, rfl⟩
    · rw [hdo]; simp [hmin]
    · rw [hdo]; simp
    · rw [hdo]; intro _; rfl
  · rw [if_neg hmin] at hchar
    rw [hchar] at hdo
    by_cases hfire : |wrap64 (v - l)| < T
    · rw [if_pos hfire] at hdo
      refine ⟨?_, ?_, ?_, rfl⟩
      · rw [hdo]; simp; omega
      · rw [hdo]; simp
      · rw [hdo]; intro _; rfl
    · rw [if_neg hfire] at hdo
      refine ⟨?_, ?_, ?_, rfl⟩
      · rw [hdo]; simp [hmin]; omega
      · rw [hdo]; intro _; rfl
      · rw [hdo]; simp

/-- Witness for the amended C3 at threshold `3`, `lastAllowed = 0`,
`v = 10`: the gate fires and rebases to `10`. -/
theorem C3_delta_gate_amended_witness :
    (0 : Int) ≤ 3 ∧
    ((((OncePerDelta.mk 3 0).Do 10).2 = true ↔
       (wrap64 (10 - 0) ≠ -(2 ^ 63) ∧ 3 ≤ |wrap64 (10 - 0)|)) ∧
     (((OncePerDelta.mk 3 0).Do 10).2 = true →
       ((OncePerDelta.mk 3 0).Do 10).1 = OncePerDelta.mk 3 10) ∧
     (((OncePerDelta.mk 3 0).Do 10).2 = false →
       ((OncePerDelta.mk 3 0).Do 10).1 = OncePerDelta.mk 3 0) ∧
     ((OncePerDelta.mk 3 0).Reset 10).lastVal = 10) :=
  ⟨by norm_num, C3_delta_gate_amended 3 0 10 (by norm_num)⟩

/-- Claim C10 (confirmed): whenever the wrapped difference `v - lastVal`
equals the minimum int64 `-2^63`, the conditional negation leaves it
negative, so for every positive threshold (thresholds are int64, hence
below `2^63`) the callback is suppressed although the mathematical
magnitude of the wrapped change, `2^63`, exceeds the threshold. -/
theorem C10_min_wrapped_diff_suppressed (T l v : Int)
    (h : wrap64 (v - l) = -(2 ^ 63)) (hT : 0 < T) (hTr : T < 2 ^ 63) :
    ((OncePerDelta.mk T l).Do v).2 = false ∧
    condNegAbs (wrap64 (v - l)) < 0 ∧
    T < |wrap64 (v - l)| := by
  have hc : condNegAbs (wrap64 (v - l)) = -(2 ^ 63) := by
    rw [h, condNegAbs_spec _ (by norm_num) (by norm_num), if_pos rfl]
  refine ⟨?_, by omega, ?_⟩
  · rw [OncePerDelta.Do_eq]
    simp only [show (OncePerDelta.mk T l).lastVal = l from rfl,
      show (OncePerDelta.mk T l).delta = T from rfl, hc]
    rw [if_pos (by omega)]
  · rw [h, abs_of_neg (by norm_num)]
    omega

/-- Witness for C10 at `T = 5`, `lastVal = 0`, `v = -2^63`. -/
theorem C10_min_wrapped_diff_suppressed_witness :
    wrap64 (-(2 ^ 63) - 0) = -(2 ^ 63) ∧ (0 : Int) < 5 ∧ (5 : Int) < 2 ^ 63 ∧
    (((OncePerDelta.mk 5 0).Do (-(2 ^ 63))).2 = false ∧
     condNegAbs (wrap64 (-(2 ^ 63) - 0)) < 0 ∧
     (5 : Int) < |wrap64 (-(2 ^ 63) - 0)|) :=
  ⟨by decide, by norm_num, by norm_num,
   C10_min_wrapped_diff_suppressed 5 0 (-(2 ^ 63)) (by decide) (by norm_num) (by norm_num)⟩

/-! ## Claim C5 -/

/-- Claim C5 (refuted, code bug): the organic publication path
`Metrics.pub` is guarded by the comma-ok map lookup and never panics, for
any scope attached or not; but the poll-answering path `Metrics.pubMetrics`
indexes `m.edges[raddr]` without the ok check and calls `Pub` on the
resulting value — when the polled scope has no attached channel that value
is the nil interface and the call panics instead of being silently
dropped.  Evaluated at the fixture registry with only scope A attached,
answering a poll for scope B panics. -/
theorem C5_publish_detached_scope :
    (∀ (m : Metrics) (raddr payload : String),
      ∃ acts, m.pub raddr payload = Except.ok acts) ∧
    mA.pubMetrics "B" 100 =
      Except.error "panic: Pub called on nil psyche.Interface" := by
  constructor
  · intro m raddr payload
    unfold Metrics.pub
    split_ifs <;> exact ⟨_, rfl⟩
  · rfl

/-! ## Claim C9 -/

/-- Claim C9 (refuted, code bug): `metricsListener.Accept` calls
`conn.RemoteAddr()` before inspecting the error returned by the underlying
`Accept`; when the underlying accept fails (`conn` nil, error non-nil) that
method call on the nil interface panics, instead of returning the error
untouched as the claim requires.  On a successful accept the connection is
wrapped with the per-connection gauges from the factory and the (nil)
error is passed through. -/
theorem C9_accept_error_dereferences_nil :
    metricsListener.Accept gZero gZero (fun _ => (gZero, gZero))
        (none, some "accept: too many open files") =
      Except.error
        "panic: runtime error: invalid memory address or nil pointer dereference" ∧
    metricsListener.Accept gZero gZero (fun _ => (gZero, gZero))
        (some ⟨"1.2.3.4:5"⟩, none) =
      Except.ok ((⟨gZero, gZero, gZero, gZero⟩, ⟨"1.2.3.4:5"⟩), none) := by
  exact ⟨rfl, rfl⟩

/-! ## Claim C6 -/

/-- Claim C6 (confirmed): `Gauge.Add` with `n ≠ 0` offers the wrapped new
value to the delta gate first and invokes the throttle only when the gate
allows the change; a below-threshold change leaves the throttle state
(timer, pending slot, running flag, last-run time) untouched and produces
no throttle action. -/
theorem C6_delta_gate_before_throttle (g : Gauge) (n now : Int) (hn : n ≠ 0) :
    ((g.opd.Do (wrap64 (g.val + n))).2 = false →
      (g.Add n now).1.opdur = g.opdur ∧ (g.Add n now).2 = none) ∧
    ((g.opd.Do (wrap64 (g.val + n))).2 = true →
      (g.Add n now).1.opdur = (g.opdur.Do 0 now).1 ∧
      (g.Add n now).2 = some (g.opdur.Do 0 now).2) := by
  unfold Gauge.Add
  rw [if_neg hn]
  constructor <;> intro h <;> simp [h]

/-- Witness for C6: a change of `3` on a gauge with threshold `10` leaves
the throttle untouched. -/
theorem C6_delta_gate_before_throttle_witness :
    (3 : Int) ≠ 0 ∧
    (((gC6.opd.Do (wrap64 (gC6.val + 3))).2 = false →
       (gC6.Add 3 17).1.opdur = gC6.opdur ∧ (gC6.Add 3 17).2 = none) ∧
     ((gC6.opd.Do (wrap64 (gC6.val + 3))).2 = true →
       (gC6.Add 3 17).1.opdur = (gC6.opdur.Do 0 17).1 ∧
       (gC6.Add 3 17).2 = some (gC6.opdur.Do 0 17).2)) :=
  ⟨by norm_num, C6_delta_gate_before_throttle gC6 3 17 (by norm_num)⟩

/-! ## Claims C7 and C8: value tracking through Gauge.Add -/

theorem Gauge.Add_val (g : Gauge) (n now : Int) (hn : n ≠ 0) :
    (g.Add n now).1.val = wrap64 (g.val + n) := by
  unfold Gauge.Add
  rw [if_neg hn]
  by_cases h : (g.opd.Do (wrap64 (g.val + n))).2 <;> simp [h]

theorem Gauge.Add_val_exact (g : Gauge) (n now : Int)
    (hl : -(2 ^ 63) ≤ g.val + n) (hu : g.val + n < 2 ^ 63) :
    (g.Add n now).1.val = g.val + n := by
  by_cases hn : n = 0
  · subst hn
    unfold Gauge.Add
    simp
  · rw [Gauge.Add_val g n now hn, wrap64_eq_self hl hu]

/-- Claim C7 (confirmed): the in-flight middleware increments the gauge
before invoking the inner handler — during processing `Val()` reads one
more than before the request — and decrements it exactly once after the
handler returns or raises, so afterwards `Val()` equals its value before
the request in both outcomes; the handler outcome itself is propagated
unchanged.  (The bound `g.val < 2^63 - 1` keeps the int64 increment from
wrapping; the in-flight count cannot approach it.) -/
theorem C7_in_flight_middleware (σ : Type) (g : Gauge) (now1 now2 : Int)
    (handler : σ → HandlerOutcome σ) (s : σ)
    (h1 : -(2 ^ 63) ≤ g.val) (h2 : g.val < 2 ^ 63 - 1) :
    (InFlightMiddleware g now1 now2 handler s).1.Val = g.Val + 1 ∧
    (InFlightMiddleware g now1 now2 handler s).2.1.Val = g.Val ∧
    (InFlightMiddleware g now1 now2 handler s).2.2 = handler s := by
  have hinc : ((g.Inc now1).1).val = g.val + 1 :=
    Gauge.Add_val_exact g 1 now1 (by omega) (by omega)
  have hdec : (((g.Inc now1).1.Dec now2).1).val = g.val :=
    (Gauge.Add_val_exact (g.Inc now1).1 (-1) now2 (by omega) (by omega)).trans
      (by omega)
  exact ⟨hinc, hdec, rfl⟩

/-- Witness for C7: a request through the middleware on a zero gauge whose
handler raises still restores the gauge to `0`, and reads `1` while the
handler runs. -/
theorem C7_in_flight_middleware_witness :
    (-(2 ^ 63) : Int) ≤ gZero.val ∧ gZero.val < 2 ^ 63 - 1 ∧
    ((InFlightMiddleware gZero 0 1 (fun u : Unit => HandlerOutcome.raised u) ()).1.Val
        = gZero.Val + 1 ∧
     (InFlightMiddleware gZero 0 1 (fun u : Unit => HandlerOutcome.raised u) ()).2.1.Val
        = gZero.Val ∧
     (InFlightMiddleware gZero 0 1 (fun u : Unit => HandlerOutcome.raised u) ()).2.2
        = (fun u : Unit => HandlerOutcome.raised u) ()) :=
  ⟨by decide, by decide,
   C7_in_flight_middleware Unit gZero 0 1 (fun u => HandlerOutcome.raised u) ()
     (by decide) (by decide)⟩

/-- Claim C8 (confirmed): a `Write` that transferred `n` bytes adds exactly
`n` to the server-wide and the per-connection sent gauges and leaves both
received gauges entirely untouched; a `Read` that transferred `n` bytes
adds exactly `n` to both received gauges and never touches a sent gauge;
consequently writing a 100-byte then a 50-byte payload increases each sent
gauge by exactly 150.  (The bounds keep the int64 adds from wrapping.) -/
theorem C8_byte_count_gauges (mc : metricsConn) (n now : Int) (hn : 0 ≤ n)
    (hb : ∀ g ∈ [mc.sentTotal, mc.receivedTotal, mc.sentThis, mc.receivedThis],
      -(2 ^ 63) ≤ g.val ∧ g.val + n < 2 ^ 63 ∧ g.val + 150 < 2 ^ 63) :
    (mc.Write n now).sentTotal.val = mc.sentTotal.val + n ∧
    (mc.Write n now).sentThis.val = mc.sentThis.val + n ∧
    (mc.Write n now).receivedTotal = mc.receivedTotal ∧
    (mc.Write n now).receivedThis = mc.receivedThis ∧
    (mc.Read n now).receivedTotal.val = mc.receivedTotal.val + n ∧
    (mc.Read n now).receivedThis.val = mc.receivedThis.val + n ∧
    (mc.Read n now).sentTotal = mc.sentTotal ∧
    (mc.Read n now).sentThis = mc.sentThis ∧
    ((mc.Write 100 now).Write 50 now).sentTotal.val = mc.sentTotal.val + 150 ∧
    ((mc.Write 100 now).Write 50 now).sentThis.val = mc.sentThis.val + 150 := by
  obtain ⟨hst1, hst2, hst3⟩ := hb mc.sentTotal (by simp)
  obtain ⟨hrt1, hrt2, hrt3⟩ := hb mc.receivedTotal (by simp)
  obtain ⟨hsc1, hsc2, hsc3⟩ := hb mc.sentThis (by simp)
  obtain ⟨hrc1, hrc2, hrc3⟩ := hb mc.receivedThis (by simp)
  have w100t : ((mc.Write 100 now).sentTotal).val = mc.sentTotal.val + 100 :=
    Gauge.Add_val_exact mc.sentTotal 100 now (by omega) (by omega)
  have w100c : ((mc.Write 100 now).sentThis).val = mc.sentThis.val + 100 :=
    Gauge.Add_val_exact mc.sentThis 100 now (by omega) (by omega)
  refine ⟨Gauge.Add_val_exact mc.sentTotal n now (by omega) (by omega),
    Gauge.Add_val_exact mc.sentThis n now (by omega) (by omega),
    rfl, rfl,
    Gauge.Add_val_exact mc.receivedTotal n now (by omega) (by omega),
    Gauge.Add_val_exact mc.receivedThis n now (by omega) (by omega),
    rfl, rfl, ?_, ?_⟩
  · have := Gauge.Add_val_exact (mc.Write 100 now).sentTotal 50 now
      (by omega) (by omega)
    rw [show ((mc.Write 100 now).Write 50 now).sentTotal
          = ((mc.Write 100 now).sentTotal.Add 50 now).1 from rfl, this]
    omega
  · have := Gauge.Add_val_exact (mc.Write 100 now).sentThis 50 now
      (by omega) (by omega)
    rw [show ((mc.Write 100 now).Write 50 now).sentThis
          = ((mc.Write 100 now).sentThis.Add 50 now).1 from rfl, this]
    omega

/-- Witness for C8 on the all-zero connection with a 7-byte transfer. -/
theorem C8_byte_count_gauges_witness :
    (0 : Int) ≤ 7 ∧
    (∀ g ∈ [mcZero.sentTotal, mcZero.receivedTotal, mcZero.sentThis,
            mcZero.receivedThis],
      -(2 ^ 63) ≤ g.val ∧ g.val + 7 < 2 ^ 63 ∧ g.val + 150 < 2 ^ 63) ∧
    ((mcZero.Write 7 0).sentTotal.val = mcZero.sentTotal.val + 7 ∧
     (mcZero.Write 7 0).sentThis.val = mcZero.sentThis.val + 7 ∧
     (mcZero.Write 7 0).receivedTotal = mcZero.receivedTotal ∧
     (mcZero.Write 7 0).receivedThis = mcZero.receivedThis ∧
     (mcZero.Read 7 0).receivedTotal.val = mcZero.receivedTotal.val + 7 ∧
     (mcZero.Read 7 0).receivedThis.val = mcZero.receivedThis.val + 7 ∧
     (mcZero.Read 7 0).sentTotal = mcZero.sentTotal ∧
     (mcZero.Read 7 0).sentThis = mcZero.sentThis ∧
     ((mcZero.Write 100 0).Write 50 0).sentTotal.val = mcZero.sentTotal.val + 150 ∧
     ((mcZero.Write 100 0).Write 50 0).sentThis.val = mcZero.sentThis.val + 150) :=
  ⟨by norm_num, by decide, C8_byte_count_gauges mcZero 7 0 (by norm_num) (by decide)⟩

/-! ## Claim C4 -/

theorem string_join_nil : String.join [] = "" := rfl

theorem string_join_cons (a : String) (l : List String) :
    String.join (a :: l) = a ++ String.join l := by
  apply String.ext
  simp

theorem pollStep_foldl (raddr : String) (now : Int) (gs : List Gauge)
    (b : String) (l : List Gauge) :
    gs.foldl (pollStep raddr now) (b, l) =
      (b ++ payloadFor gs raddr, l ++ gs.map (resetGauge now)) := by
  induction gs generalizing b l with
  | nil => simp [payloadFor, string_join_nil, String.append_empty]
  | cons g gs ih =>
    rw [List.foldl_cons, show pollStep raddr now (b, l) g =
      ((if g.raddr = "" ∨ g.raddr = raddr
        then b ++ g.StringWithVal g.Val ++ "\n" else b),
       l ++ [resetGauge now g]) from rfl, ih]
    by_cases hvis : g.raddr = "" ∨ g.raddr = raddr
    · rw [if_pos hvis]
      have hfil : (g :: gs).filter (visibleTo raddr) =
          g :: gs.filter (visibleTo raddr) := by
        rw [List.filter_cons_of_pos]
        simp [visibleTo, hvis]
      refine Prod.ext ?_ ?_
      · show b ++ g.StringWithVal g.Val ++ "\n" ++ payloadFor gs raddr
          = b ++ payloadFor (g :: gs) raddr
        unfold payloadFor
        rw [hfil, List.map_cons, string_join_cons]
        simp [String.append_assoc, Gauge.Val]
      · show l ++ [resetGauge now g] ++ gs.map (resetGauge now)
          = l ++ (g :: gs).map (resetGauge now)
        simp
    · rw [if_neg hvis]
      have hfil : (g :: gs).filter (visibleTo raddr) =
          gs.filter (visibleTo raddr) := by
        rw [List.filter_cons_of_neg]
        simp only [visibleTo, Bool.or_eq_true, decide_eq_true_eq, not_or]
        push_neg at hvis
        exact ⟨hvis.1, hvis.2⟩
      refine Prod.ext ?_ ?_
      · show b ++ payloadFor gs raddr = b ++ payloadFor (g :: gs) raddr
        unfold payloadFor
        rw [hfil]
      · show l ++ [resetGauge now g] ++ gs.map (resetGauge now)
          = l ++ (g :: gs).map (resetGauge now)
        simp

/-- Claim C4 counterexample: the fixture registry holds a global gauge `G1`
(value 5) and a gauge `G2` scoped to connection B (value 7, gate threshold
3, gate baseline 0).  A poll from scope A publishes exactly the payload
`G1=5` to A as the claim states, but it also resets the delta gate of `G2`
— a gauge scoped to a different connection — rebasing its baseline from 0
to 7, where the claim requires the gate state of such gauges to be left
unchanged. -/
theorem C4_counterexample :
    (mA.gauges.map fun g => g.opd.lastVal) = [0, 0] ∧
    mA.pubMetrics "A" 100 =
      Except.ok (mAReset, [⟨"A", ".metrics", "G1=5\n"⟩]) ∧
    (mAReset.gauges.map fun g => g.opd.lastVal) = [5, 7] ∧
    (7 : Int) ≠ 0 := by
  refine ⟨rfl, rfl, rfl, by norm_num⟩

/-- Claim C4 (amended): answering a poll from scope `s` publishes to `s`
exactly one payload made of one newline-terminated `name=value` line for
each gauge whose scope is empty or equals `s`, in registration order, and
resets the delta gate (to the just-read value) and the coalescing throttle
of every registered gauge — including the gauges scoped to other
connections, whose gates the original claim said are left unchanged. -/
theorem C4_poll_dump (m : Metrics) (raddr : String) (now : Int)
    (h : raddr ∈ m.edges) :
    m.pubMetrics raddr now =
      Except.ok ({ m with gauges := m.gauges.map (resetGauge now) },
        [⟨raddr, metricsSubject, payloadFor m.gauges raddr⟩]) := by
  unfold Metrics.pubMetrics
  rw [pollStep_foldl]
  simp [h]

/-- Witness for the amended C4 on the fixture registry, polled from its
attached scope A. -/
theorem C4_poll_dump_witness :
    "A" ∈ mA.edges ∧
    mA.pubMetrics "A" 100 =
      Except.ok ({ mA with gauges := mA.gauges.map (resetGauge 100) },
        [⟨"A", metricsSubject, payloadFor mA.gauges "A"⟩]) :=
  ⟨by decide, C4_poll_dump mA "A" 100 (by decide)⟩

/-! ## Claim C2 -/

namespace OPMachine

theorem eq_singleton_of_mem {l : List Nat} {a : Nat} (h1 : l.length ≤ 1)
    (h2 : a ∈ l) : l = [a] := by
  cases l with
  | nil => cases h2
  | cons x xs =>
    cases xs with
    | nil =>
      obtain rfl := List.mem_singleton.mp h2
      rfl
    | cons y ys => simp [List.length_cons] at h1

theorem init_inv : Inv init := by
  refine ⟨?_, ?_, ?_, ?_, ?_, ?_, ?_, ?_, ?_, ?_, ?_⟩ <;> simp [init]

theorem step_inv {s s1 : St} {e : Ev} (hne : e ≠ Ev.reset)
    (hInv : Inv s) (hs : step s e = some s1) : Inv s1 := by
  cases e with
  | reset => exact absurd rfl hne
  | doCall id w =>
    simp only [step] at hs
    split at hs
    next hmem => exact absurd hs (by simp)
    next hmem =>
      have hidexec : id ∉ s.executed := fun hc => hmem (hInv.execSub id hc)
      have hidsup : id ∉ s.superseded := fun hc => hmem (hInv.supSub id hc)
      split at hs
      next hbusy =>
        obtain rfl := Option.some.inj hs
        refine ⟨hInv.oneRunner, hInv.runningIff, hInv.oneFire, ?_, hInv.execNodup,
          ?_, ?_, ?_, ?_, ?_, ?_⟩
        · intro hq
          exact ⟨rfl, (hInv.fireWaiting hq).2⟩
        · intro i hi
          have hi2 : i ∈ s.pending.elim s.superseded (fun j => j :: s.superseded) := hi
          show i ∉ s.executed
          rcases hp : s.pending with _ | j
          · rw [hp] at hi2
            simp only [Option.elim] at hi2
            exact hInv.supNotExec i hi2
          · rw [hp] at hi2
            simp only [Option.elim] at hi2
            rcases List.mem_cons.mp hi2 with rfl | hi3
            · exact (hInv.pendingFresh i hp).1
            · exact hInv.supNotExec i hi3
        · intro i hpi
          have hpi2 : some id = some i := hpi
          obtain rfl := Option.some.inj hpi2
          refine ⟨hidexec, ?_, rfl⟩
          show id ∉ s.pending.elim s.superseded fun j => j :: s.superseded
          rcases hp : s.pending with _ | j
          · simp only [Option.elim]
            exact hidsup
          · simp only [Option.elim]
            intro hc
            rcases List.mem_cons.mp hc with rfl | hc2
            · exact hmem (hInv.pendingSub _ hp)
            · exact hidsup hc2
        · intro i hi
          exact List.mem_cons_of_mem _ (hInv.execSub i hi)
        · intro i hi
          have hi2 : i ∈ s.pending.elim s.superseded (fun j => j :: s.superseded) := hi
          show i ∈ id :: s.submitted
          rcases hp : s.pending with _ | j
          · rw [hp] at hi2
            simp only [Option.elim] at hi2
            exact List.mem_cons_of_mem _ (hInv.supSub i hi2)
          · rw [hp] at hi2
            simp only [Option.elim] at hi2
            rcases List.mem_cons.mp hi2 with rfl | hi3
            · exact List.mem_cons_of_mem _ (hInv.pendingSub _ hp)
            · exact List.mem_cons_of_mem _ (hInv.supSub i hi3)
        · intro i hi
          exact List.mem_cons_of_mem _ (hInv.runSub i hi)
        · intro i hpi
          have hpi2 : some id = some i := hpi
          obtain rfl := Option.some.inj hpi2
          exact List.mem_cons_self _ _
      next hbusy =>
        have hpn : s.pending = none := by
          rcases hp : s.pending with _ | j
          · rfl
          · rw [hp] at hbusy
            simp at hbusy
        have hnrun : s.isRunning = false := by
          cases hr : s.isRunning with
          | false => rfl
          | true =>
            rw [hr] at hbusy
            simp at hbusy
        have hrnil : s.runners = [] := by
          by_contra hne2
          have := hInv.runningIff.mpr hne2
          rw [hnrun] at this
          exact absurd this (by simp)
        have hnofire : ¬(s.armed = true ∨ 0 < s.queued) := by
          intro hq
          have h1 := (hInv.fireWaiting hq).1
          rw [hpn] at h1
          exact absurd h1 (by simp)
        split at hs
        next hw =>
          obtain rfl := Option.some.inj hs
          have hq0 : s.queued = 0 := by
            have := fun h => hnofire (Or.inr h)
            omega
          refine ⟨hInv.oneRunner, hInv.runningIff, ?_, ?_, hInv.execNodup,
            hInv.supNotExec, ?_, ?_, ?_, ?_, ?_⟩
          · simp [hq0]
          · intro _
            exact ⟨rfl, hrnil⟩
          · intro i hpi
            have hpi2 : some id = some i := hpi
            obtain rfl := Option.some.inj hpi2
            exact ⟨hidexec, hidsup, rfl⟩
          · intro i hi
            exact List.mem_cons_of_mem _ (hInv.execSub i hi)
          · intro i hi
            exact List.mem_cons_of_mem _ (hInv.supSub i hi)
          · intro i hi
            exact List.mem_cons_of_mem _ (hInv.runSub i hi)
          · intro i hpi
            have hpi2 : some id = some i := hpi
            obtain rfl := Option.some.inj hpi2
            exact List.mem_cons_self _ _
        next hw =>
          obtain rfl := Option.some.inj hs
          refine ⟨?_, ?_, hInv.oneFire, ?_, ?_, ?_, ?_, ?_, ?_, ?_, ?_⟩
          · show (id :: s.runners).length ≤ 1
            rw [hrnil]
            simp
          · show (true = true) ↔ (id :: s.runners ≠ [])
            simp
          · intro hq
            exact absurd hq hnofire
          · show (id :: s.executed).Nodup
            exact List.nodup_cons.mpr ⟨hidexec, hInv.execNodup⟩
          · intro i hi
            have hi2 : i ∈ s.superseded := hi
            show i ∉ id :: s.executed
            simp only [List.mem_cons, not_or]
            refine ⟨?_, hInv.supNotExec i hi2⟩
            intro hii
            exact hmem (hii ▸ hInv.supSub i hi2)
          · intro i hpi
            have hpi2 : s.pending = some i := hpi
            rw [hpn] at hpi2
            exact absurd hpi2 (by simp)
          · intro i hi
            have hi2 : i ∈ id :: s.executed := hi
            show i ∈ id :: s.submitted
            rcases List.mem_cons.mp hi2 with rfl | hi3
            · exact List.mem_cons_self _ _
            · exact List.mem_cons_of_mem _ (hInv.execSub i hi3)
          · intro i hi
            exact List.mem_cons_of_mem _ (hInv.supSub i hi)
          · intro i hi
            have hi2 : i ∈ id :: s.runners := hi
            show i ∈ id :: s.submitted
            rcases List.mem_cons.mp hi2 with rfl | hi3
            · exact List.mem_cons_self _ _
            · exact List.mem_cons_of_mem _ (hInv.runSub i hi3)
          · intro i hpi
            have hpi2 : s.pending = some i := hpi
            rw [hpn] at hpi2
            exact absurd hpi2 (by simp)
  | fire =>
    simp only [step] at hs
    split at hs
    next ha =>
      obtain rfl := Option.some.inj hs
      have hq0 : s.queued = 0 := by
        have h3 := hInv.oneFire
        simp [ha] at h3
        omega
      refine ⟨hInv.oneRunner, hInv.runningIff, ?_, ?_, hInv.execNodup,
        hInv.supNotExec, hInv.pendingFresh, hInv.execSub, hInv.supSub,
        hInv.runSub, hInv.pendingSub⟩
      · simp [hq0]
      · intro _
        exact hInv.fireWaiting (Or.inl ha)
    next ha => exact absurd hs (by simp)
  | handleT =>
    simp only [step] at hs
    split at hs
    next hq => exact absurd hs (by simp)
    next hq =>
      have hqpos : 0 < s.queued := Nat.pos_of_ne_zero hq
      have hpw := hInv.fireWaiting (Or.inr hqpos)
      have harm : s.armed = false := by
        cases ha : s.armed with
        | false => rfl
        | true =>
          have h3 := hInv.oneFire
          simp [ha] at h3
          omega
      split at hs
      next hpn =>
        rw [hpn] at hpw
        exact absurd hpw.1 (by simp)
      next id hpi =>
        obtain rfl := Option.some.inj hs
        obtain ⟨hidexec, hidsup, -⟩ := hInv.pendingFresh id hpi
        refine ⟨?_, ?_, ?_, ?_, ?_, ?_, ?_, ?_, hInv.supSub, ?_, ?_⟩
        · show (id :: s.runners).length ≤ 1
          rw [hpw.2]
          simp
        · show (true = true) ↔ (id :: s.runners ≠ [])
          simp
        · show (if s.armed = true then 1 else 0) + (s.queued - 1) ≤ 1
          have h3 := hInv.oneFire
          simp [harm] at h3 ⊢
          omega
        · intro hqa
          rcases hqa with hqa | hqa
          · have hqa2 : s.armed = true := hqa
            rw [harm] at hqa2
            exact absurd hqa2 (by simp)
          · have hqa2 : 0 < s.queued - 1 := hqa
            have h3 := hInv.oneFire
            simp [harm] at h3
            exact absurd hqa2 (by omega)
        · show (id :: s.executed).Nodup
          exact List.nodup_cons.mpr ⟨hidexec, hInv.execNodup⟩
        · intro i hi
          have hi2 : i ∈ s.superseded := hi
          show i ∉ id :: s.executed
          simp only [List.mem_cons, not_or]
          refine ⟨?_, hInv.supNotExec i hi2⟩
          intro hii
          exact hidsup (hii ▸ hi2)
        · intro i hpi2
          have hpi3 : (none : Option Nat) = some i := hpi2
          exact absurd hpi3 (by simp)
        · intro i hi
          have hi2 : i ∈ id :: s.executed := hi
          show i ∈ s.submitted
          rcases List.mem_cons.mp hi2 with rfl | hi3
          · exact hInv.pendingSub i hpi
          · exact hInv.execSub i hi3
        · intro i hi
          have hi2 : i ∈ id :: s.runners := hi
          show i ∈ s.submitted
          rcases List.mem_cons.mp hi2 with rfl | hi3
          · exact hInv.pendingSub i hpi
          · exact hInv.runSub i hi3
        · intro i hpi2
          have hpi3 : (none : Option Nat) = some i := hpi2
          exact absurd hpi3 (by simp)
  | finish id =>
    simp only [step] at hs
    split at hs
    next hmem =>
      have hrsing : s.runners = [id] := eq_singleton_of_mem hInv.oneRunner hmem
      have hnofire : ¬(s.armed = true ∨ 0 < s.queued) := by
        intro hq
        have h2 := (hInv.fireWaiting hq).2
        rw [hrsing] at h2
        exact absurd h2 (by simp)
      split at hs
      next hpn =>
        obtain rfl := Option.some.inj hs
        refine ⟨?_, ?_, hInv.oneFire, ?_, hInv.execNodup, hInv.supNotExec,
          ?_, hInv.execSub, hInv.supSub, ?_, ?_⟩
        · show (s.runners.erase id).length ≤ 1
          rw [hrsing]
          simp
        · show (false = true) ↔ (s.runners.erase id ≠ [])
          rw [hrsing]
          simp
        · intro hq
          exact absurd hq hnofire
        · intro i hpi
          have hpi2 : s.pending = some i := hpi
          rw [hpn] at hpi2
          exact absurd hpi2 (by simp)
        · intro i hi
          have hi2 : i ∈ s.runners.erase id := hi
          rw [hrsing] at hi2
          simp at hi2
        · intro i hpi
          have hpi2 : s.pending = some i := hpi
          rw [hpn] at hpi2
          exact absurd hpi2 (by simp)
      next j hpj =>
        obtain rfl := Option.some.inj hs
        obtain ⟨hjexec, hjsup, -⟩ := hInv.pendingFresh j hpj
        refine ⟨?_, ?_, hInv.oneFire, ?_, ?_, ?_, ?_, ?_, hInv.supSub, ?_, ?_⟩
        · show (j :: s.runners.erase id).length ≤ 1
          rw [hrsing]
          simp
        · show (s.isRunning = true) ↔ (j :: s.runners.erase id ≠ [])
          constructor
          · intro _
            simp
          · intro _
            exact hInv.runningIff.mpr (by rw [hrsing]; simp)
        · intro hq
          exact absurd hq hnofire
        · show (j :: s.executed).Nodup
          exact List.nodup_cons.mpr ⟨hjexec, hInv.execNodup⟩
        · intro i hi
          have hi2 : i ∈ s.superseded := hi
          show i ∉ j :: s.executed
          simp only [List.mem_cons, not_or]
          refine ⟨?_, hInv.supNotExec i hi2⟩
          intro hij
          exact hjsup (hij ▸ hi2)
        · intro i hpi2
          have hpi3 : (none : Option Nat) = some i := hpi2
          exact absurd hpi3 (by simp)
        · intro i hi
          have hi2 : i ∈ j :: s.executed := hi
          show i ∈ s.submitted
          rcases List.mem_cons.mp hi2 with rfl | hi3
          · exact hInv.pendingSub i hpj
          · exact hInv.execSub i hi3
        · intro i hi
          have hi2 : i ∈ j :: s.runners.erase id := hi
          show i ∈ s.submitted
          rcases List.mem_cons.mp hi2 with rfl | hi3
          · exact hInv.pendingSub i hpj
          · rw [hrsing] at hi3
            simp at hi3
        · intro i hpi2
          have hpi3 : (none : Option Nat) = some i := hpi2
          exact absurd hpi3 (by simp)
    next hmem => exact absurd hs (by simp)

theorem run_inv (tr : List Ev) :
    ∀ (s0 s1 : St), Inv s0 → Ev.reset ∉ tr → run s0 tr = some s1 → Inv s1 := by
  induction tr with
  | nil =>
    intro s0 s1 hInv _ h
    simp only [run] at h
    exact (Option.some.inj h) ▸ hInv
  | cons e tr ih =>
    intro s0 s1 hInv hnr h
    simp only [run] at h
    rcases hstep : step s0 e with _ | s2
    · rw [hstep] at h
      exact absurd h (by simp)
    · rw [hstep] at h
      rw [Option.some_bind] at h
      have hne : e ≠ Ev.reset := by
        intro he
        subst he
        exact hnr (List.mem_cons_self _ _)
      exact ih s2 s1 (step_inv hne hInv hstep)
        (fun hm => hnr (List.mem_cons_of_mem e hm)) h

end OPMachine

/-- Claim C2 (confirmed): over every interleaving of `Do` calls, timer
firings and run completions (the events the claim quantifies over — the
out-of-band `Reset` is excluded), every state reachable from the initial
throttle state satisfies: at most one callback is executing; no callback's
execution ever starts twice; a callback superseded while waiting in the
pending slot is never executed; and the pending slot, when occupied, holds
the most recently submitted callback (last-write-wins). -/
theorem C2_throttle_serialized (tr : List OPMachine.Ev) (s : OPMachine.St)
    (hnr : OPMachine.Ev.reset ∉ tr) (h : OPMachine.run OPMachine.init tr = some s) :
    s.runners.length ≤ 1 ∧
    s.executed.Nodup ∧
    (∀ i ∈ s.superseded, i ∉ s.executed) ∧
    (∀ i, s.pending = some i → s.submitted.head? = some i) := by
  have hInv := OPMachine.run_inv tr OPMachine.init s OPMachine.init_inv hnr h
  exact ⟨hInv.oneRunner, hInv.execNodup, hInv.supNotExec,
    fun i hpi => (hInv.pendingFresh i hpi).2.2⟩

/-- Witness for C2 on a concrete seven-event trace: callback 0 is armed
behind the window and superseded by callback 1, the timer fires and runs 1,
callback 2 arrives while 1 runs and is executed by the runner loop. -/
theorem C2_throttle_serialized_witness :
    OPMachine.Ev.reset ∉ OPMachine.tr0 ∧
    OPMachine.run OPMachine.init OPMachine.tr0 = some OPMachine.final0 ∧
    (OPMachine.final0.runners.length ≤ 1 ∧
     OPMachine.final0.executed.Nodup ∧
     (∀ i ∈ OPMachine.final0.superseded, i ∉ OPMachine.final0.executed) ∧
     (∀ i, OPMachine.final0.pending = some i →
       OPMachine.final0.submitted.head? = some i)) :=
  ⟨by decide, by decide,
   C2_throttle_serialized OPMachine.tr0 OPMachine.final0 (by decide) (by decide)⟩

end FlyPsyche
